import Mathlib

/-!
Verification of the core algorithms of the TeCNNis tennis hit-frame /
landing-spot pipeline (`TeCCNis_Code.py`), shallowly embedded in Lean 4.

Floating-point quantities (distances, weights, normalized coordinates) are
modelled as rationals; parsed frame indices as integers; missing/NaN values
as `Option`; the `(None, None)` failure results as `Option.none`.
-/

namespace TeCNNis

/-- `np.clip` on rationals: first raises to `lo`, then caps at `hi`
(the order numpy applies the bounds). -/
def clipQ (v lo hi : ℚ) : ℚ := min (max v lo) hi

/-- `np.clip` on integers, same bound order as numpy. -/
def clipZ (v lo hi : ℤ) : ℤ := min (max v lo) hi

/-- `map_coordinates` (TeCCNis_Code.py lines 216-229): maps raw distances (m)
to normalized [0,1] coordinates.  `none` distance/shot-type inputs model
pandas-missing/NaN values; the `none` result models the `(None, None)` pair. -/
def map_coordinates (dist_sideline dist_baseline : Option ℚ) (shot_type : Option String)
    (court_width court_length : ℚ) : Option (ℚ × ℚ) :=
  match dist_sideline, dist_baseline, shot_type with
  | some ds, some db, some st =>
    if st ≠ "Straight" ∧ st ≠ "Cross" then none
    else if court_width ≤ 0 ∨ court_length ≤ 0 then none
    else
      let y_norm := db / court_length
      let x_norm := if st = "Straight" then (court_width - ds) / court_width
                    else ds / court_width
      some (clipQ x_norm 0 1, clipQ y_norm 0 1)
  | _, _, _ => none

/-- `denormalize_coordinates` (lines 1129-1136): converts normalized [0,1]
coordinates back to metric distances `(dist_from_left_m, dist_from_right_m,
dist_from_baseline_m)`; clips the inputs to [0,1] first, and returns the null
triple when a court dimension is non-positive. -/
def denormalize_coordinates (norm_x norm_y court_width court_length : ℚ) :
    Option (ℚ × ℚ × ℚ) :=
  let x := clipQ norm_x 0 1
  let y := clipQ norm_y 0 1
  if court_width ≤ 0 ∨ court_length ≤ 0 then none
  else
    let dist_from_left := x * court_width
    some (dist_from_left, court_width - dist_from_left, y * court_length)

/-- One row of a video's frame group in `df_meta`: the frame index parsed by
`re.search(r'frame_(\d+)', basename)` (`none` when unparsable) and the
`is_hit_frame` flag.  Rows are kept in group (CSV) order. -/
structure FrameRow where
  frame_num : Option ℤ
  is_hit_frame : Bool
deriving Repr, DecidableEq, Inhabited

/-- Positions (0-based, in group row order) of the rows with
`is_hit_frame == 1`; the embedding of `group[group['is_hit_frame'] == 1]`. -/
def hitPositions (group : List FrameRow) : List ℕ :=
  (List.range group.length).filter fun p => (group.getD p default).is_hit_frame

/-- Position in the group of `hit_frames.iloc[len(hit_frames) // 2]`, the row
the code crowns as canonical hit (meaningful only when a hit row exists). -/
def canonPos (group : List FrameRow) : ℕ :=
  let hp := hitPositions group
  hp.getD (hp.length / 2) 0

/-- Effective frame number of the row at position `p`: the parsed index, or
the ordinal position in the group as fallback (`group.index.get_loc`). -/
def effNum (group : List FrameRow) (p : ℕ) : ℤ :=
  (group.getD p default).frame_num.getD p

/-- `middle_frame_num`: effective frame number of the canonical hit row. -/
def canonNum (group : List FrameRow) : ℤ :=
  effNum group (canonPos group)

/-- Weight computed for the row at position `p` inside the loop of
`assign_linear_weights`: 1.0 on the canonical hit row itself, else linear
decay `max(0, 1 - distance * decay_rate)` inside the half-window, else 0. -/
def rowWeight (group : List FrameRow) (total_frames_window : ℕ) (decay_rate : ℚ)
    (p : ℕ) : ℚ :=
  let distance : ℕ := (effNum group p - canonNum group).natAbs
  if p = canonPos group then 1
  else if distance ≤ total_frames_window / 2 then
    max 0 (1 - (distance : ℚ) * decay_rate)
  else 0

/-- `assign_linear_weights` (lines 326-362): per-row weights of one video's
frame group, positionally aligned with the group.  All weights are 0 when no
row is marked as hit. -/
def assign_linear_weights (group : List FrameRow) (total_frames_window : ℕ)
    (decay_rate : ℚ) : List ℚ :=
  if (hitPositions group).isEmpty then List.replicate group.length 0
  else (List.range group.length).map (rowWeight group total_frames_window decay_rate)

/-- The clamped-window sequence extraction shared by `get_sequences`
(lines 477-487) and `predict_hit_and_landing`:
`[sorted[np.clip(i, 0, num_total - 1)] for i in range(hit - half, hit + half + 1)]`
with `half = n // 2`. -/
def build_sequence {α : Type} [Inhabited α] (video_frames : List α)
    (canonical_hit_index : ℤ) (n_frames_sequence : ℕ) : List α :=
  let num_total : ℤ := video_frames.length
  let half : ℕ := n_frames_sequence / 2
  (List.range (2 * half + 1)).map fun k : ℕ =>
    video_frames.getD
      (clipZ (canonical_hit_index - (half : ℤ) + (k : ℤ)) 0 (num_total - 1)).toNat
      default

/-- One row of the balanced dataframe as seen by `get_sequences`: the frame
index parsed from `frame_path` (`none` when `re.search` fails and
`int(...group(1))` raises) and the weight assigned by
`assign_linear_weights`.  A row stands for its (unique) frame path. -/
structure WRow where
  frame_num : Option ℤ
  weight : ℚ
deriving Repr, DecidableEq, Inhabited

/-- One `video_id` group of the balanced dataframe, with the `shot_id`
derived from `os.path.basename(video_id)`. -/
structure VideoGroup where
  shot_id : String
  rows : List WRow
deriving Repr, DecidableEq, Inhabited

/-- `group.sort_values('frame_num_int')`: the rows in ascending parsed-index
order (a structurally-recursive stable sort; on the distinct indices the
code sorts, every correct sort coincides). -/
def sortRows (rows : List WRow) : List WRow :=
  List.insertionSort (fun a b => a.frame_num.getD 0 ≤ b.frame_num.getD 0) rows

/-- The rows of weight exactly 1.0 in the sorted group (`hit_rows`). -/
def hitRows (rows : List WRow) : List WRow :=
  (sortRows rows).filter fun r => r.weight = 1

/-- The sequence `get_sequences` extracts for one video: the clamped window
of `n` sorted rows centered on the first occurrence of
`hit_rows.iloc[len(hit_rows) // 2]` (python `sorted_paths.index(...)`). -/
def videoSeq (n_frames_sequence : ℕ) (v : VideoGroup) : List WRow :=
  let sorted := sortRows v.rows
  let hits := hitRows v.rows
  let hit_row := hits.getD (hits.length / 2) default
  let hit_idx_sorted : ℤ := sorted.indexOf hit_row
  build_sequence sorted hit_idx_sorted n_frames_sequence

/-- How `get_sequences` disposes of one video: produce a sequence, or skip it
under one of the four counted categories. -/
inductive SeqOutcome where
  | success
  | noHit
  | noLanding
  | parseErr
  | short
deriving Repr, DecidableEq, Inhabited

/-- Per-video control flow of the `get_sequences` loop body: an unparsable
frame path raises inside the `try` (counted as a parse skip); otherwise a
video with no weight-1.0 row, then an unmatched shot id, then a sequence of
the wrong length are skipped under their own counters. -/
def seqOutcome (landingIds : List String) (n_frames_sequence : ℕ)
    (v : VideoGroup) : SeqOutcome :=
  if ¬ v.rows.all (fun r => r.frame_num.isSome) then .parseErr
  else if (hitRows v.rows).isEmpty then .noHit
  else if v.shot_id ∉ landingIds then .noLanding
  else if (videoSeq n_frames_sequence v).length = n_frames_sequence then .success
  else .short

/-- The accumulated result of `get_sequences`: the produced sequences and the
four skip counters it reports. -/
structure SeqSummary where
  sequences_for_dataset : List (List WRow)
  skipped_no_hit : ℕ
  skipped_no_landing : ℕ
  skipped_parse : ℕ
  skipped_short : ℕ
deriving Repr, DecidableEq

/-- `get_sequences` (lines 442-493): iterates over the video groups, emitting
one sequence per successful video and bumping exactly one skip counter per
failed one.  `landingIds` is the index of `landing_df` (the known shot ids). -/
def get_sequences (videos : List VideoGroup) (landingIds : List String)
    (n_frames_sequence : ℕ) : SeqSummary :=
  videos.foldr (fun v acc =>
    match seqOutcome landingIds n_frames_sequence v with
    | .success =>
        { acc with sequences_for_dataset :=
            videoSeq n_frames_sequence v :: acc.sequences_for_dataset }
    | .noHit => { acc with skipped_no_hit := acc.skipped_no_hit + 1 }
    | .noLanding => { acc with skipped_no_landing := acc.skipped_no_landing + 1 }
    | .parseErr => { acc with skipped_parse := acc.skipped_parse + 1 }
    | .short => { acc with skipped_short := acc.skipped_short + 1 })
    ⟨[], 0, 0, 0, 0⟩

/-- Python `int()` on a rational: truncation toward zero. -/
def pythonInt (q : ℚ) : ℤ := if q < 0 then ⌈q⌉ else ⌊q⌋

/-- The sampling size of `balance_and_split_data` (lines 385-406):
`min(len(non_hit_frames), int(balance_ratio * len(hit_frames_weighted)))`. -/
def balance_sample_size (numPos numNeg : ℕ) (balance_ratio : ℚ) : ℕ :=
  min numNeg (pythonInt (balance_ratio * numPos)).toNat

/-- Counting half of `balance_and_split_data` applied to the weight column:
`(number of rows with weight > 0, number of weight-0 rows sampled)`. -/
def balance_counts (weights : List ℚ) (balance_ratio : ℚ) : ℕ × ℕ :=
  let numPos := weights.countP fun w => 0 < w
  let numNeg := weights.countP fun w => w = 0
  (numPos, balance_sample_size numPos numNeg balance_ratio)

/-- Size of `balanced_df = pd.concat([hit_frames_weighted, sampled_non_hit])`. -/
def balanced_size (weights : List ℚ) (balance_ratio : ℚ) : ℕ :=
  (balance_counts weights balance_ratio).1 + (balance_counts weights balance_ratio).2

/-- One scored frame of the CNN1 inference loop (`predictions_cnn1` entry):
the frame path and its CNN1 score.  The list is built in sorted file order. -/
structure FramePred where
  path : String
  score : ℚ
deriving Repr, DecidableEq, Inhabited

/-- `max(predictions_cnn1, key=lambda x: x['score'])` guarded by the
emptiness check: python's `max` keeps the current maximum and replaces it
only on a strictly greater key, so ties keep the earliest element. -/
def selectBestHit (preds : List FramePred) : Option FramePred :=
  match preds with
  | [] => none
  | p :: ps => some (ps.foldl (fun acc x => if acc.score < x.score then x else acc) p)

section Datasets

variable {Img : Type}

/-- `TennisFrameDataset.__getitem__` (lines 629-648) at `augment=False` (the
final-training configuration; augmentation is randomized and the error path
is identical).  `decode` models `cv2.imread` + decoding (`none` = failure,
which raises and lands in the `except` branch), `proc` the deterministic
resize/normalize/transpose preprocessing, `zeroImg` the all-zeros tensor.
On failure the item becomes `(zeros, 0.0)` whatever the stored target is. -/
def tennisFrameGetItem (decode : String → Option Img) (proc : Img → Img)
    (zeroImg : Img) (paths : List String) (targets : List ℚ) (idx : ℕ) : Img × ℚ :=
  match decode (paths.getD idx "") with
  | some img => (proc img, targets.getD idx 0)
  | none => (zeroImg, 0)

/-- `BallLandingDataset.__getitem__` (lines 659-691) at `augment=False`
(so `global_flip_status` stays `False` and the target is never mirrored).
Each frame that fails to decode is replaced by the zero image while the
loop continues; the landing target is kept.  The final length check turns a
wrong-sized sequence into the all-zeros item with target `(0, 0)`. -/
def ballLandingGetItem (decode : String → Option Img) (proc : Img → Img)
    (zeroImg : Img) (n_frames_sequence : ℕ) (sequence_paths : List String)
    (target_coords : ℚ × ℚ) : List Img × (ℚ × ℚ) :=
  let sequence_tensors := sequence_paths.map fun p =>
    match decode p with
    | some img => proc img
    | none => zeroImg
  if sequence_tensors.length = n_frames_sequence then
    (sequence_tensors, target_coords)
  else (List.replicate n_frames_sequence zeroImg, (0, 0))

end Datasets

/-! ### Helper lemmas -/

theorem clipQ_eq_self {v : ℚ} (h0 : 0 ≤ v) (h1 : v ≤ 1) : clipQ v 0 1 = v := by
  simp [clipQ, max_eq_left h0, min_eq_left h1]

theorem build_sequence_length {α : Type} [Inhabited α] (frames : List α) (h : ℤ)
    {n : ℕ} (hodd : n % 2 = 1) : (build_sequence frames h n).length = n := by
  rw [build_sequence, List.length_map, List.length_range]
  omega

theorem build_sequence_getD {α : Type} [Inhabited α] (frames : List α) (h : ℤ)
    {n : ℕ} (hodd : n % 2 = 1) {k : ℕ} (hk : k < n) :
    (build_sequence frames h n).getD k default =
      frames.getD (clipZ (h - (n / 2 : ℕ) + k) 0 ((frames.length : ℤ) - 1)).toNat
        default := by
  have hk2 : k < 2 * (n / 2) + 1 := by omega
  rw [build_sequence, List.getD_eq_getElem?_getD, List.getElem?_map,
    List.getElem?_range hk2]
  rfl

theorem hitPositions_mem {group : List FrameRow} {p : ℕ}
    (h : p ∈ hitPositions group) :
    p < group.length ∧ (group.getD p default).is_hit_frame = true := by
  rw [hitPositions] at h
  obtain ⟨hmem, hpred⟩ := List.mem_filter.mp h
  exact ⟨List.mem_range.mp hmem, hpred⟩

theorem canonPos_mem {group : List FrameRow} (hne : hitPositions group ≠ []) :
    canonPos group ∈ hitPositions group := by
  rw [canonPos]
  have hpos : 0 < (hitPositions group).length := List.length_pos.mpr hne
  have hlt : (hitPositions group).length / 2 < (hitPositions group).length :=
    Nat.div_lt_self hpos one_lt_two
  rw [List.getD_eq_getElem _ 0 hlt]
  exact List.getElem_mem hlt

theorem canonPos_lt {group : List FrameRow} (hne : hitPositions group ≠ []) :
    canonPos group < group.length :=
  (hitPositions_mem (canonPos_mem hne)).1

theorem assign_getD {group : List FrameRow} {total_frames_window : ℕ}
    {decay_rate : ℚ} (hne : hitPositions group ≠ []) {p : ℕ}
    (hp : p < group.length) :
    (assign_linear_weights group total_frames_window decay_rate).getD p 0 =
      rowWeight group total_frames_window decay_rate p := by
  rw [assign_linear_weights, if_neg (by simpa using hne),
    List.getD_eq_getElem?_getD, List.getElem?_map, List.getElem?_range hp]
  rfl

theorem effNum_of_isSome {group : List FrameRow} {p : ℕ}
    (hp : p < group.length)
    (hparse : ∀ r ∈ group, r.frame_num.isSome) :
    effNum group p = (group.getD p default).frame_num.getD 0 := by
  have hmem : group.getD p default ∈ group := by
    rw [List.getD_eq_getElem _ _ hp]
    exact List.getElem_mem hp
  obtain ⟨v, hv⟩ := Option.isSome_iff_exists.mp (hparse _ hmem)
  rw [effNum, hv]
  rfl

/-! ### Claim theorems -/

/-- **C1.** For a video group with no hit annotation, every weight is 0.
Otherwise (with all frame indices parsable) each row's weight is the pure
function of `d = |frame_index - canonical_hit_index|`: `1.0` at `d = 0`,
`max(0, 1 - d * decay_rate)` for `0 < d ≤ window/2`, and `0` beyond. -/
theorem c1_linear_weight_profile (group : List FrameRow)
    (total_frames_window : ℕ) (decay_rate : ℚ) :
    (hitPositions group = [] →
      assign_linear_weights group total_frames_window decay_rate =
        List.replicate group.length 0) ∧
    (hitPositions group ≠ [] →
      (∀ r ∈ group, r.frame_num.isSome) →
      ∀ p, p < group.length →
        (assign_linear_weights group total_frames_window decay_rate).getD p 0 =
          (let d := ((group.getD p default).frame_num.getD 0 -
              (group.getD (canonPos group) default).frame_num.getD 0).natAbs
           if d = 0 then 1
           else if d ≤ total_frames_window / 2 then
             max 0 (1 - (d : ℚ) * decay_rate)
           else 0)) := by
  constructor
  · intro h
    rw [assign_linear_weights, if_pos (by simp [h])]
  · intro hne hparse p hp
    rw [assign_getD hne hp, rowWeight]
    have hc := canonPos_lt hne
    have ep : effNum group p = (group.getD p default).frame_num.getD 0 :=
      effNum_of_isSome hp hparse
    have ec : canonNum group =
        (group.getD (canonPos group) default).frame_num.getD 0 := by
      rw [canonNum]
      exact effNum_of_isSome hc hparse
    rw [ep, ec]
    set d := ((group.getD p default).frame_num.getD 0 -
      (group.getD (canonPos group) default).frame_num.getD 0).natAbs with hd
    by_cases hpc : p = canonPos group
    · have hd0 : d = 0 := by
        rw [hd, hpc, sub_self, Int.natAbs_zero]
      simp [hpc, hd0]
    · rw [if_neg hpc]
      by_cases hd0 : d = 0
      · have : (d : ℚ) * decay_rate = 0 := by
          rw [hd0]
          simp
        simp [hd0, this, Nat.zero_le, max_eq_right zero_le_one]
      · simp [hd0]

/-- Witness for C1: a hit-less group gets all-zero weights; the spec's
example group (frames 8,10,12,15, hit at 10, window 9, decay 0.3) gives
weight 0.4 at distance 2 and weight 0 at distance 5. -/
theorem c1_linear_weight_profile_witness :
    (assign_linear_weights [⟨some 3, false⟩, ⟨some 4, false⟩] 9 (3/10) =
      List.replicate 2 0) ∧
    ((assign_linear_weights [⟨some 8, false⟩, ⟨some 10, true⟩, ⟨some 12, false⟩,
        ⟨some 15, false⟩] 9 (3/10)).getD 2 0 = 2/5 ∧
      (assign_linear_weights [⟨some 8, false⟩, ⟨some 10, true⟩, ⟨some 12, false⟩,
        ⟨some 15, false⟩] 9 (3/10)).getD 3 0 = 0) := by
  refine ⟨?_, ?_, ?_⟩
  · have h := (c1_linear_weight_profile [⟨some 3, false⟩, ⟨some 4, false⟩] 9
      (3/10)).1 (by norm_num [hitPositions, List.range_succ])
    simpa using h
  · have h := (c1_linear_weight_profile [⟨some 8, false⟩, ⟨some 10, true⟩,
      ⟨some 12, false⟩, ⟨some 15, false⟩] 9 (3/10)).2
      (by norm_num [hitPositions, List.range_succ])
      (by intro r hr; fin_cases hr <;> rfl) 2 (by norm_num)
    rw [h]
    norm_num [canonPos, hitPositions, List.range_succ]
  · have h := (c1_linear_weight_profile [⟨some 8, false⟩, ⟨some 10, true⟩,
      ⟨some 12, false⟩, ⟨some 15, false⟩] 9 (3/10)).2
      (by norm_num [hitPositions, List.range_succ])
      (by intro r hr; fin_cases hr <;> rfl) 3 (by norm_num)
    rw [h]
    norm_num [canonPos, hitPositions, List.range_succ]

/-- **C4, counterexample.** A group with an even number of hit annotations
(rows 0 and 1, frame indices 5 and 9, window 9, decay 0.3): the claimed
lower-middle tie-break would make row 0 (index 5) the canonical hit with
weight 1.0, but the code gives it weight 0 and crowns row 1 (index 9),
the upper-middle hit row (`hit_frames.iloc[len(hit_frames) // 2]`). -/
theorem c4_counterexample :
    hitPositions [⟨some 5, true⟩, ⟨some 9, true⟩] = [0, 1] ∧
    (assign_linear_weights [⟨some 5, true⟩, ⟨some 9, true⟩] 9 (3/10)).getD 0 0 ≠ 1 ∧
    (assign_linear_weights [⟨some 5, true⟩, ⟨some 9, true⟩] 9 (3/10)).getD 1 0 = 1 := by
  refine ⟨by norm_num [hitPositions, List.range_succ], ?_, ?_⟩
  · have : (assign_linear_weights [⟨some 5, true⟩, ⟨some 9, true⟩] 9
        (3/10)).getD 0 0 = 0 := by
      norm_num [assign_linear_weights, hitPositions, canonPos, canonNum, effNum,
        rowWeight, List.range_succ, List.getD, List.isEmpty, List.filter]
    rw [this]
    norm_num
  · norm_num [assign_linear_weights, hitPositions, canonPos, canonNum, effNum,
      rowWeight, List.range_succ, List.getD, List.isEmpty, List.filter]

/-- **C4, amended.** The canonical hit frame chosen when several hit
annotations exist is the one at hit position `count / 2` in row order (the
median for odd counts, the **upper**-middle for even counts); it is an
annotated hit row and receives weight exactly 1.0.  Sequence building makes
the same `iloc[len // 2]` selection among the weight-1.0 rows. -/
theorem c4_median_upper_middle (group : List FrameRow)
    (total_frames_window : ℕ) (decay_rate : ℚ)
    (hne : hitPositions group ≠ []) :
    canonPos group =
      (hitPositions group).getD ((hitPositions group).length / 2) 0 ∧
    (group.getD (canonPos group) default).is_hit_frame = true ∧
    (assign_linear_weights group total_frames_window decay_rate).getD
      (canonPos group) 0 = 1 ∧
    (∀ (v : VideoGroup) (n : ℕ),
      videoSeq n v = build_sequence (sortRows v.rows)
        ((sortRows v.rows).indexOf
          ((hitRows v.rows).getD ((hitRows v.rows).length / 2) default)) n) := by
  refine ⟨rfl, (hitPositions_mem (canonPos_mem hne)).2, ?_, fun v n => rfl⟩
  rw [assign_getD hne (canonPos_lt hne), rowWeight, if_pos rfl]

/-- Witness for C4 (amended): in a 3-hit group the median hit row (position
2 of the group, hit position 1) is canonical and gets weight 1.0. -/
theorem c4_median_upper_middle_witness :
    hitPositions [⟨some 4, false⟩, ⟨some 5, true⟩, ⟨some 7, true⟩,
      ⟨some 9, true⟩] = [1, 2, 3] ∧
    canonPos [⟨some 4, false⟩, ⟨some 5, true⟩, ⟨some 7, true⟩,
      ⟨some 9, true⟩] = 2 ∧
    (assign_linear_weights [⟨some 4, false⟩, ⟨some 5, true⟩, ⟨some 7, true⟩,
      ⟨some 9, true⟩] 9 (3/10)).getD 2 0 = 1 := by
  have hhp : hitPositions [⟨some 4, false⟩, ⟨some 5, true⟩, ⟨some 7, true⟩,
      ⟨some 9, true⟩] = [1, 2, 3] := by
    norm_num [hitPositions, List.range_succ]
  have h := c4_median_upper_middle [⟨some 4, false⟩, ⟨some 5, true⟩,
    ⟨some 7, true⟩, ⟨some 9, true⟩] 9 (3/10) (by rw [hhp]; simp)
  refine ⟨hhp, ?_, h.2.2.1⟩
  rw [h.1, hhp]
  rfl

/-- **C6.** For any video group with at least one hit annotation, pairwise
distinct effective frame numbers and a positive decay rate, exactly one
frame receives weight 1.0 and every weight lies in `[0, 1]`. -/
theorem c6_weight_peak_unique (group : List FrameRow)
    (total_frames_window : ℕ) (decay_rate : ℚ)
    (hne : hitPositions group ≠ [])
    (hinj : ∀ p q, p < group.length → q < group.length → p ≠ q →
      effNum group p ≠ effNum group q)
    (hdecay : 0 < decay_rate) :
    (assign_linear_weights group total_frames_window decay_rate).countP
      (fun w => w = 1) = 1 ∧
    ∀ w ∈ assign_linear_weights group total_frames_window decay_rate,
      0 ≤ w ∧ w ≤ 1 := by
  have hc := canonPos_lt hne
  have hone : ∀ p, p < group.length →
      (rowWeight group total_frames_window decay_rate p = 1 ↔
        p = canonPos group) := by
    intro p hp
    constructor
    · intro hw
      by_contra hpc
      have hnum : effNum group p ≠ canonNum group := hinj p (canonPos group) hp hc hpc
      have hd : (effNum group p - canonNum group).natAbs ≠ 0 := by
        intro h0
        exact hnum (sub_eq_zero.mp (Int.natAbs_eq_zero.mp h0))
      have hd1 : 1 ≤ ((effNum group p - canonNum group).natAbs : ℚ) := by
        exact_mod_cast Nat.one_le_iff_ne_zero.mpr hd
      rw [rowWeight, if_neg hpc] at hw
      by_cases hwin : (effNum group p - canonNum group).natAbs ≤
          total_frames_window / 2
      · rw [if_pos hwin] at hw
        have hlt : max 0 (1 - ((effNum group p - canonNum group).natAbs : ℚ) *
            decay_rate) < 1 := by
          apply max_lt zero_lt_one
          nlinarith
        exact absurd hw (ne_of_lt hlt)
      · rw [if_neg hwin] at hw
        exact absurd hw.symm one_ne_zero
    · intro h
      rw [rowWeight, if_pos h]
  constructor
  · rw [assign_linear_weights, if_neg (by simpa using hne), List.countP_map]
    have hcongr : ∀ p ∈ List.range group.length,
        ((fun w : ℚ => decide (w = 1)) ∘
          rowWeight group total_frames_window decay_rate) p = true ↔
        (fun p => decide (p = canonPos group)) p = true := by
      intro p hp
      simp only [Function.comp, decide_eq_true_eq]
      exact hone p (List.mem_range.mp hp)
    rw [List.countP_congr hcongr]
    have : ∀ n c : ℕ, c < n → (List.range n).countP (fun p => decide (p = c)) = 1 := by
      intro n
      induction n with
      | zero => intro c hc; omega
      | succ m ih =>
        intro c hc
        rw [List.range_succ, List.countP_append]
        rcases Nat.lt_or_ge c m with h | h
        · rw [ih c h]
          have : m ≠ c := by omega
          simp [this]
        · have hcm : c = m := by omega
          subst hcm
          have : (List.range c).countP (fun p => decide (p = c)) = 0 := by
            rw [List.countP_eq_zero]
            intro a ha
            have := List.mem_range.mp ha
            simp
            omega
          rw [this]
          simp
    exact this group.length (canonPos group) hc
  · intro w hw
    rw [assign_linear_weights, if_neg (by simpa using hne)] at hw
    obtain ⟨p, hp, hpw⟩ := List.mem_map.mp hw
    rw [rowWeight] at hpw
    split_ifs at hpw
    · rw [← hpw]
      norm_num
    · rw [← hpw]
      refine ⟨le_max_left _ _, max_le zero_le_one ?_⟩
      have : (0:ℚ) ≤ ((effNum group p - canonNum group).natAbs : ℚ) * decay_rate :=
        mul_nonneg (Nat.cast_nonneg _) hdecay.le
      linarith
    · rw [← hpw]
      norm_num

/-- Witness for C6: the spec's example group (4 frames, hit at index 10,
window 9, decay 0.3) has exactly one weight-1.0 frame and all weights in
`[0, 1]`. -/
theorem c6_weight_peak_unique_witness :
    (assign_linear_weights [⟨some 8, false⟩, ⟨some 10, true⟩, ⟨some 12, false⟩,
      ⟨some 15, false⟩] 9 (3/10)).countP (fun w => w = 1) = 1 ∧
    ∀ w ∈ assign_linear_weights [⟨some 8, false⟩, ⟨some 10, true⟩,
      ⟨some 12, false⟩, ⟨some 15, false⟩] 9 (3/10), 0 ≤ w ∧ w ≤ 1 := by
  refine c6_weight_peak_unique _ 9 (3/10)
    (by norm_num [hitPositions, List.range_succ]) ?_ (by norm_num)
  intro p q hp hq hpq
  have hp4 : p < 4 := by simpa using hp
  have hq4 : q < 4 := by simpa using hq
  interval_cases p <;> interval_cases q <;>
    first
    | exact absurd rfl hpq
    | decide

/-- **C2.** For every nonempty sorted frame list, odd sequence length `N` and
hit index `h`, `build_sequence` returns exactly the `N` frames
`video_frames[clip(i, 0, len - 1)]` for `i` from `h - N/2` to `h + N/2`:
the output always has length exactly `N`, boundary frames repeating. -/
theorem c2_sequence_clamped_window {α : Type} [Inhabited α] (video_frames : List α)
    (h : ℤ) (n : ℕ) (_hne : video_frames ≠ []) (hodd : n % 2 = 1) :
    (build_sequence video_frames h n).length = n ∧
    ∀ k, k < n →
      (build_sequence video_frames h n).getD k default =
        video_frames.getD
          (clipZ (h - (n / 2 : ℕ) + k) 0 ((video_frames.length : ℤ) - 1)).toNat
          default := by
  refine ⟨build_sequence_length video_frames h hodd, fun k hk => ?_⟩
  exact build_sequence_getD video_frames h hodd hk

/-- Witness for C2: 20 frames (indices 0–19), hit index 18, `N = 9` gives
exactly 9 frames, namely `[14,15,16,17,18,19,19,19,19]`. -/
theorem c2_sequence_clamped_window_witness :
    (build_sequence (List.range 20) 18 9).length = 9 ∧
    build_sequence (List.range 20) 18 9 = [14, 15, 16, 17, 18, 19, 19, 19, 19] := by
  refine ⟨(c2_sequence_clamped_window (List.range 20) 18 9 (by decide) (by decide)).1, ?_⟩
  decide

/-- **C3.** Coordinate round-trip: for `(x, y) ∈ [0,1]²` and positive court
dimensions, feeding the appropriate sideline distance of
`denormalize_coordinates` (the right-sideline distance for "Straight", the
left-sideline distance for "Cross") together with the baseline distance back
through `map_coordinates` reconstructs `(x, y)` exactly, for each shot type
independently. -/
theorem c3_coordinate_roundtrip (x y court_width court_length : ℚ)
    (hx0 : 0 ≤ x) (hx1 : x ≤ 1) (hy0 : 0 ≤ y) (hy1 : y ≤ 1)
    (hW : 0 < court_width) (hL : 0 < court_length) :
    ∀ d_left d_right d_base,
      denormalize_coordinates x y court_width court_length =
        some (d_left, d_right, d_base) →
      map_coordinates (some d_right) (some d_base) (some "Straight")
          court_width court_length = some (x, y) ∧
      map_coordinates (some d_left) (some d_base) (some "Cross")
          court_width court_length = some (x, y) := by
  intro d_left d_right d_base hden
  have hW' : ¬ court_width ≤ 0 := not_le.mpr hW
  have hL' : ¬ court_length ≤ 0 := not_le.mpr hL
  have hWne : court_width ≠ 0 := ne_of_gt hW
  have hLne : court_length ≠ 0 := ne_of_gt hL
  rw [denormalize_coordinates] at hden
  simp only [clipQ_eq_self hx0 hx1, clipQ_eq_self hy0 hy1, hW', hL', or_self,
    if_false, Option.some.injEq, Prod.mk.injEq] at hden
  obtain ⟨h1, h2, h3⟩ := hden
  subst h1; subst h2; subst h3
  have ex : court_width - (court_width - x * court_width) = x * court_width := by
    ring
  have exw : x * court_width / court_width = x := mul_div_cancel_right₀ x hWne
  have eyl : y * court_length / court_length = y := mul_div_cancel_right₀ y hLne
  constructor
  · rw [map_coordinates]
    simp [hW', hL', ex, exw, eyl, clipQ_eq_self hx0 hx1, clipQ_eq_self hy0 hy1]
  · rw [map_coordinates]
    simp [hW', hL', exw, eyl, clipQ_eq_self hx0 hx1, clipQ_eq_self hy0 hy1]

/-- Witness for C3 at `(x, y) = (1/2, 1/4)` on the doubles court. -/
theorem c3_coordinate_roundtrip_witness :
    denormalize_coordinates (1/2) (1/4) (1097/100) (1189/100) =
      some (1097/200, 1097/200, 1189/400) ∧
    map_coordinates (some (1097/200)) (some (1189/400)) (some "Straight")
        (1097/100) (1189/100) = some (1/2, 1/4) ∧
    map_coordinates (some (1097/200)) (some (1189/400)) (some "Cross")
        (1097/100) (1189/100) = some (1/2, 1/4) := by
  have hden : denormalize_coordinates (1/2) (1/4) (1097/100) (1189/100) =
      some (1097/200, 1097/200, 1189/400) := by
    norm_num [denormalize_coordinates, clipQ]
  have hmain := c3_coordinate_roundtrip (1/2) (1/4) (1097/100) (1189/100)
    (by norm_num) (by norm_num) (by norm_num) (by norm_num) (by norm_num)
    (by norm_num) (1097/200) (1097/200) (1189/400) hden
  exact ⟨hden, hmain.1, hmain.2⟩

/-- **C5.** `map_coordinates` returns the null pair exactly when a distance
or the shot type is missing, the shot type is unrecognized, or a court
dimension is non-positive; otherwise it returns the clipped normalized pair,
with the `x` formula depending on the shot type. -/
theorem c5_map_coordinates_spec (ds db : Option ℚ) (st : Option String)
    (court_width court_length : ℚ) :
    (map_coordinates ds db st court_width court_length = none ↔
      ds = none ∨ db = none ∨ st = none ∨
      (st ≠ some "Straight" ∧ st ≠ some "Cross") ∨
      court_width ≤ 0 ∨ court_length ≤ 0) ∧
    (∀ d1 d2 s, ds = some d1 → db = some d2 → st = some s →
      s = "Straight" ∨ s = "Cross" → 0 < court_width → 0 < court_length →
      map_coordinates ds db st court_width court_length =
        some (if s = "Straight" then clipQ ((court_width - d1) / court_width) 0 1
              else clipQ (d1 / court_width) 0 1,
              clipQ (d2 / court_length) 0 1)) := by
  constructor
  · match ds, db, st with
    | none, _, _ => simp [map_coordinates]
    | some d1, none, _ => simp [map_coordinates]
    | some d1, some d2, none => simp [map_coordinates]
    | some d1, some d2, some s =>
      rw [map_coordinates]
      split_ifs with h1 h2
      · simp only [true_iff]
        exact Or.inr (Or.inr (Or.inr (Or.inl (by simpa using h1))))
      · simp only [true_iff]
        exact Or.inr (Or.inr (Or.inr (Or.inr h2)))
      · push_neg at h2
        simp only [Option.some_ne_none, false_iff]
        intro hcon
        rcases hcon with h | h | h | ⟨hS, hC⟩ | h | h
        · exact h
        · exact h
        · exact h
        · exact h1 ⟨by simpa using hS, by simpa using hC⟩
        · exact absurd h (not_le.mpr h2.1)
        · exact absurd h (not_le.mpr h2.2)
  · intro d1 d2 s hds hdb hst hshot hW hL
    subst hds; subst hdb; subst hst
    rw [map_coordinates]
    have h1 : ¬ (s ≠ "Straight" ∧ s ≠ "Cross") := by
      rcases hshot with h | h <;> simp [h]
    have h2 : ¬ (court_width ≤ 0 ∨ court_length ≤ 0) := by
      push_neg
      exact ⟨hW, hL⟩
    simp only [h1, h2, if_false]
    split_ifs <;> rfl

/-- Witness for C5: concrete scenario 1 of the spec,
`map_coordinates(1.0, 6.0, "Straight", 10.97, 11.89)`. -/
theorem c5_map_coordinates_spec_witness :
    map_coordinates (some 1) (some 6) (some "Straight") (1097/100) (1189/100) =
      some (997/1097, 600/1189) := by
  have := (c5_map_coordinates_spec (some 1) (some 6) (some "Straight")
    (1097/100) (1189/100)).2 1 6 "Straight" rfl rfl rfl (Or.inl rfl)
    (by norm_num) (by norm_num)
  rw [this]
  norm_num [clipQ]

/-- **C7, counterexample.** With 5 positive-weight frames, 10 available
negatives and `balance_ratio = 0.7`, the code samples
`min(10, int(0.7 * 5)) = min(10, int(3.5)) = 3` negatives, while the claimed
formula `min(|negatives|, round(balance_ratio * |positives|))` gives
`min(10, 4) = 4`. -/
theorem c7_counterexample :
    (balance_counts (List.replicate 5 (1:ℚ) ++ List.replicate 10 0) (7/10)).2 = 3 ∧
    min ((List.replicate 5 (1:ℚ) ++ List.replicate 10 0).countP fun w => w = 0)
      (round ((7/10 : ℚ) *
        ((List.replicate 5 (1:ℚ) ++ List.replicate 10 0).countP
          fun w => 0 < w : ℕ))).toNat = 4 := by
  have hpos : ((List.replicate 5 (1:ℚ) ++ List.replicate 10 0).countP
      fun w => 0 < w) = 5 := by
    rw [List.countP_append, List.countP_replicate, List.countP_replicate]
    norm_num
  have hneg : ((List.replicate 5 (1:ℚ) ++ List.replicate 10 0).countP
      fun w => w = 0) = 10 := by
    rw [List.countP_append, List.countP_replicate, List.countP_replicate]
    norm_num
  constructor
  · rw [balance_counts]
    simp only [hpos, hneg, balance_sample_size, pythonInt]
    norm_num
    rfl
  · rw [hpos, hneg]
    rw [show ((7:ℚ)/10 * (5:ℕ)) = 7/2 by norm_num]
    rw [show round ((7:ℚ)/2) = 4 by norm_num [round_eq, Int.floor_eq_iff]]
    rfl

/-- **C7, amended.** For `balance_ratio ≥ 0`, balancing samples exactly
`min(|negatives|, ⌊balance_ratio * |positives|⌋)` weight-zero frames (python
`int()` truncation rather than rounding), never more than the available
negatives, and the balanced set has size `|positives| + sampled`. -/
theorem c7_balance_floor_count (weights : List ℚ) (balance_ratio : ℚ)
    (hr : 0 ≤ balance_ratio) :
    (balance_counts weights balance_ratio).2 =
      min (weights.countP fun w => w = 0)
        (⌊balance_ratio * (weights.countP fun w => 0 < w : ℕ)⌋).toNat ∧
    (balance_counts weights balance_ratio).2 ≤
      weights.countP (fun w => w = 0) ∧
    balanced_size weights balance_ratio =
      (weights.countP fun w => 0 < w) +
        (balance_counts weights balance_ratio).2 := by
  have hfloor : pythonInt (balance_ratio * (weights.countP fun w => 0 < w : ℕ)) =
      ⌊balance_ratio * (weights.countP fun w => 0 < w : ℕ)⌋ := by
    rw [pythonInt, if_neg]
    push_neg
    exact mul_nonneg hr (Nat.cast_nonneg _)
  refine ⟨?_, ?_, rfl⟩
  · rw [balance_counts]
    simp only [balance_sample_size, hfloor]
  · rw [balance_counts]
    simp only [balance_sample_size]
    exact min_le_left _ _

/-- Witness for C7 (amended): the spec's example — 10 positives,
`balance_ratio = 4`, 100 negatives available — samples exactly 40 negatives
and the balanced set has size 50. -/
theorem c7_balance_floor_count_witness :
    (balance_counts (List.replicate 10 (1:ℚ) ++ List.replicate 100 0) 4).2 = 40 ∧
    balanced_size (List.replicate 10 (1:ℚ) ++ List.replicate 100 0) 4 = 50 := by
  have h := c7_balance_floor_count
    (List.replicate 10 (1:ℚ) ++ List.replicate 100 0) 4 (by norm_num)
  have hpos : ((List.replicate 10 (1:ℚ) ++ List.replicate 100 0).countP
      fun w => 0 < w) = 10 := by
    rw [List.countP_append, List.countP_replicate, List.countP_replicate]
    norm_num
  have hneg : ((List.replicate 10 (1:ℚ) ++ List.replicate 100 0).countP
      fun w => w = 0) = 100 := by
    rw [List.countP_append, List.countP_replicate, List.countP_replicate]
    norm_num
  have hs : (balance_counts (List.replicate 10 (1:ℚ) ++ List.replicate 100 0)
      4).2 = 40 := by
    rw [h.1, hpos, hneg]
    rw [show ((4:ℚ) * (10:ℕ)) = 40 by norm_num]
    rw [show ⌊(40:ℚ)⌋ = 40 from Int.floor_intCast 40]
    rfl
  refine ⟨hs, ?_⟩
  rw [h.2.2, hs, hpos]

/-- **C8.** Batch sequence building accounts for every video: the number of
produced sequences plus the four per-category skip counts always equals the
number of videos (no video is dropped without a count increment), and a
video (with parsable frame indices) is skipped as "no hit" exactly when it
has no weight-1.0 row, as "no landing" exactly when its shot id has no
landing record, and as "short" exactly when the produced sequence length
differs from the requested one. -/
theorem c8_skip_accounting (videos : List VideoGroup) (landingIds : List String)
    (n_frames_sequence : ℕ) :
    ((get_sequences videos landingIds n_frames_sequence).sequences_for_dataset.length +
      (get_sequences videos landingIds n_frames_sequence).skipped_no_hit +
      (get_sequences videos landingIds n_frames_sequence).skipped_no_landing +
      (get_sequences videos landingIds n_frames_sequence).skipped_parse +
      (get_sequences videos landingIds n_frames_sequence).skipped_short =
        videos.length) ∧
    (∀ v ∈ videos, v.rows.all (fun r => r.frame_num.isSome) = true →
      (seqOutcome landingIds n_frames_sequence v = .noHit ↔
        hitRows v.rows = []) ∧
      (hitRows v.rows ≠ [] →
        (seqOutcome landingIds n_frames_sequence v = .noLanding ↔
          v.shot_id ∉ landingIds)) ∧
      (hitRows v.rows ≠ [] → v.shot_id ∈ landingIds →
        (seqOutcome landingIds n_frames_sequence v = .short ↔
          (videoSeq n_frames_sequence v).length ≠ n_frames_sequence))) := by
  constructor
  · induction videos with
    | nil => rfl
    | cons v vs ih =>
      rw [get_sequences, List.foldr_cons] at *
      cases h : seqOutcome landingIds n_frames_sequence v <;>
        simp only [h] <;> simp only [List.length_cons] <;> omega
  · intro v _ hparse
    rw [seqOutcome]
    rw [if_neg (by simp [hparse])]
    by_cases hhit : hitRows v.rows = []
    · rw [if_pos (by simp [hhit])]
      refine ⟨by simp [hhit], fun h => absurd hhit h, fun h => absurd hhit h⟩
    · rw [if_neg (by simp [hhit])]
      refine ⟨?_, fun _ => ?_, fun _ hland => ?_⟩
      · simp only [hhit, iff_false]
        intro hcon
        split_ifs at hcon
      · by_cases hland : v.shot_id ∈ landingIds
        · rw [if_neg (by simpa using hland)]
          constructor
          · intro hcon
            split_ifs at hcon
          · intro hcon
            exact absurd hland hcon
        · rw [if_pos (by simpa using hland)]
          simp [hland]
      · rw [if_neg (by simpa using hland)]
        by_cases hlen : (videoSeq n_frames_sequence v).length = n_frames_sequence
        · rw [if_pos hlen]
          simp [hlen]
        · rw [if_neg hlen]
          simp [hlen]

/-- Witness for C8: a batch of four videos — one good, one without a
weight-1.0 frame, one whose shot id has no landing record, one with an
unparsable frame path — yields exactly one sequence and one skip in each of
the three corresponding categories. -/
theorem c8_skip_accounting_witness :
    (get_sequences
        [⟨"IST01", [⟨some 0, 0⟩, ⟨some 1, 1⟩, ⟨some 2, 0⟩]⟩,
         ⟨"IST02", [⟨some 0, 0⟩, ⟨some 1, 0⟩]⟩,
         ⟨"XXX07", [⟨some 0, 0⟩, ⟨some 1, 1⟩]⟩,
         ⟨"IST03", [⟨none, 0⟩, ⟨some 1, 1⟩]⟩]
        ["IST01", "IST03"] 3).sequences_for_dataset.length +
      (get_sequences
        [⟨"IST01", [⟨some 0, 0⟩, ⟨some 1, 1⟩, ⟨some 2, 0⟩]⟩,
         ⟨"IST02", [⟨some 0, 0⟩, ⟨some 1, 0⟩]⟩,
         ⟨"XXX07", [⟨some 0, 0⟩, ⟨some 1, 1⟩]⟩,
         ⟨"IST03", [⟨none, 0⟩, ⟨some 1, 1⟩]⟩]
        ["IST01", "IST03"] 3).skipped_no_hit +
      (get_sequences
        [⟨"IST01", [⟨some 0, 0⟩, ⟨some 1, 1⟩, ⟨some 2, 0⟩]⟩,
         ⟨"IST02", [⟨some 0, 0⟩, ⟨some 1, 0⟩]⟩,
         ⟨"XXX07", [⟨some 0, 0⟩, ⟨some 1, 1⟩]⟩,
         ⟨"IST03", [⟨none, 0⟩, ⟨some 1, 1⟩]⟩]
        ["IST01", "IST03"] 3).skipped_no_landing +
      (get_sequences
        [⟨"IST01", [⟨some 0, 0⟩, ⟨some 1, 1⟩, ⟨some 2, 0⟩]⟩,
         ⟨"IST02", [⟨some 0, 0⟩, ⟨some 1, 0⟩]⟩,
         ⟨"XXX07", [⟨some 0, 0⟩, ⟨some 1, 1⟩]⟩,
         ⟨"IST03", [⟨none, 0⟩, ⟨some 1, 1⟩]⟩]
        ["IST01", "IST03"] 3).skipped_parse +
      (get_sequences
        [⟨"IST01", [⟨some 0, 0⟩, ⟨some 1, 1⟩, ⟨some 2, 0⟩]⟩,
         ⟨"IST02", [⟨some 0, 0⟩, ⟨some 1, 0⟩]⟩,
         ⟨"XXX07", [⟨some 0, 0⟩, ⟨some 1, 1⟩]⟩,
         ⟨"IST03", [⟨none, 0⟩, ⟨some 1, 1⟩]⟩]
        ["IST01", "IST03"] 3).skipped_short = 4 ∧
    (seqOutcome ["IST01", "IST03"] 3
      ⟨"IST02", [⟨some 0, 0⟩, ⟨some 1, 0⟩]⟩ = .noHit ↔
      hitRows [⟨some 0, 0⟩, ⟨some 1, 0⟩] = []) := by
  constructor
  · exact (c8_skip_accounting
      [⟨"IST01", [⟨some 0, 0⟩, ⟨some 1, 1⟩, ⟨some 2, 0⟩]⟩,
       ⟨"IST02", [⟨some 0, 0⟩, ⟨some 1, 0⟩]⟩,
       ⟨"XXX07", [⟨some 0, 0⟩, ⟨some 1, 1⟩]⟩,
       ⟨"IST03", [⟨none, 0⟩, ⟨some 1, 1⟩]⟩]
      ["IST01", "IST03"] 3).1
  · exact ((c8_skip_accounting
      [⟨"IST01", [⟨some 0, 0⟩, ⟨some 1, 1⟩, ⟨some 2, 0⟩]⟩,
       ⟨"IST02", [⟨some 0, 0⟩, ⟨some 1, 0⟩]⟩,
       ⟨"XXX07", [⟨some 0, 0⟩, ⟨some 1, 1⟩]⟩,
       ⟨"IST03", [⟨none, 0⟩, ⟨some 1, 1⟩]⟩]
      ["IST01", "IST03"] 3).2
      ⟨"IST02", [⟨some 0, 0⟩, ⟨some 1, 0⟩]⟩ (by simp) rfl).1

/-- The running maximum kept by python's `max`: replacing the accumulator
only on a strictly greater score preserves "earliest maximal element". -/
theorem foldl_max_spec (ps : List FramePred) (a : FramePred) :
    (a.score ≤ (ps.foldl (fun acc x => if acc.score < x.score then x else acc)
        a).score ∧
      ∀ q ∈ ps, q.score ≤ (ps.foldl
        (fun acc x => if acc.score < x.score then x else acc) a).score) ∧
    ((ps.foldl (fun acc x => if acc.score < x.score then x else acc) a) = a ∨
      ∃ l1 l2, ps = l1 ++ (ps.foldl
          (fun acc x => if acc.score < x.score then x else acc) a) :: l2 ∧
        a.score < (ps.foldl
          (fun acc x => if acc.score < x.score then x else acc) a).score ∧
        ∀ y ∈ l1, y.score < (ps.foldl
          (fun acc x => if acc.score < x.score then x else acc) a).score) := by
  induction ps generalizing a with
  | nil => exact ⟨⟨le_refl _, by simp⟩, Or.inl rfl⟩
  | cons x t ih =>
    rw [List.foldl_cons]
    by_cases hlt : a.score < x.score
    · rw [if_pos hlt]
      obtain ⟨⟨hacc, hall⟩, hcases⟩ := ih x
      refine ⟨⟨le_of_lt (lt_of_lt_of_le hlt hacc), ?_⟩, ?_⟩
      · intro q hq
        rcases List.mem_cons.mp hq with h | h
        · rw [h]; exact hacc
        · exact hall q h
      · rcases hcases with heq | ⟨l1, l2, hsplit, hgt, hbefore⟩
        · refine Or.inr ⟨[], t, ?_, ?_, by simp⟩
          · rw [heq]
            rfl
          · rw [heq]; exact hlt
        · refine Or.inr ⟨x :: l1, l2, ?_, lt_of_lt_of_le hlt hacc, ?_⟩
          · rw [List.cons_append, ← hsplit]
          · intro y hy
            rcases List.mem_cons.mp hy with h | h
            · rw [h]; exact hgt
            · exact hbefore y h
    · rw [if_neg hlt]
      push_neg at hlt
      obtain ⟨⟨hacc, hall⟩, hcases⟩ := ih a
      refine ⟨⟨hacc, ?_⟩, ?_⟩
      · intro q hq
        rcases List.mem_cons.mp hq with h | h
        · rw [h]; exact le_trans hlt hacc
        · exact hall q h
      · rcases hcases with heq | ⟨l1, l2, hsplit, hgt, hbefore⟩
        · exact Or.inl heq
        · refine Or.inr ⟨x :: l1, l2, ?_, hgt, ?_⟩
          · rw [List.cons_append, ← hsplit]
          · intro y hy
            rcases List.mem_cons.mp hy with h | h
            · rw [h]; exact lt_of_le_of_lt hlt hgt
            · exact hbefore y h

/-- **C9.** Hit-frame selection is an argmax over the per-frame scores: the
selected prediction scores at least as high as every prediction in the list
and is the first prediction in (sorted file) order to reach that maximum —
everything before it scores strictly lower. -/
theorem c9_select_best_hit_first_argmax (preds : List FramePred)
    (hne : preds ≠ []) :
    ∃ b, selectBestHit preds = some b ∧
      (∀ q ∈ preds, q.score ≤ b.score) ∧
      ∃ l1 l2, preds = l1 ++ b :: l2 ∧ ∀ y ∈ l1, y.score < b.score := by
  match preds, hne with
  | p :: ps, _ =>
    refine ⟨_, rfl, ?_, ?_⟩
    · intro q hq
      obtain ⟨⟨hacc, hall⟩, _⟩ := foldl_max_spec ps p
      rcases List.mem_cons.mp hq with h | h
      · rw [h]; exact hacc
      · exact hall q h
    · obtain ⟨⟨hacc, _⟩, hcases⟩ := foldl_max_spec ps p
      rcases hcases with heq | ⟨l1, l2, hsplit, hgt, hbefore⟩
      · refine ⟨[], ps, ?_, by simp⟩
        rw [heq]
        rfl
      · refine ⟨p :: l1, l2, by rw [List.cons_append, ← hsplit], ?_⟩
        intro y hy
        rcases List.mem_cons.mp hy with h | h
        · rw [h]; exact hgt
        · exact hbefore y h

/-- Witness for C9: among scores `[1/2, 3/4, 3/4]` the selected hit is the
frame "b" — the first of the two tied maximal frames in file order. -/
theorem c9_select_best_hit_first_argmax_witness :
    selectBestHit [⟨"a", 1/2⟩, ⟨"b", 3/4⟩, ⟨"c", 3/4⟩] = some ⟨"b", 3/4⟩ ∧
    ∃ b, selectBestHit [⟨"a", 1/2⟩, ⟨"b", 3/4⟩, ⟨"c", 3/4⟩] = some b ∧
      (∀ q ∈ [FramePred.mk "a" (1/2), ⟨"b", 3/4⟩, ⟨"c", 3/4⟩],
        q.score ≤ b.score) ∧
      ∃ l1 l2, [FramePred.mk "a" (1/2), ⟨"b", 3/4⟩, ⟨"c", 3/4⟩] =
        l1 ++ b :: l2 ∧ ∀ y ∈ l1, y.score < b.score := by
  refine ⟨?_, c9_select_best_hit_first_argmax _ (by simp)⟩
  norm_num [selectBestHit]

/-- **C10.** An image that fails to load or decode makes the single-frame
dataset return the zero image with target `0.0` regardless of the stored
target weight, while the sequence dataset keeps the true landing target and
blacks out only the failed frame (other frames stay preprocessed). -/
theorem c10_io_failure_targets {Img : Type} (decode : String → Option Img)
    (proc : Img → Img) (zeroImg : Img) :
    (∀ paths targets idx, decode (paths.getD idx "") = none →
      tennisFrameGetItem decode proc zeroImg paths targets idx = (zeroImg, 0)) ∧
    (∀ (n : ℕ) (sequence_paths : List String) (target_coords : ℚ × ℚ),
      sequence_paths.length = n →
      (ballLandingGetItem decode proc zeroImg n sequence_paths target_coords).2 =
        target_coords ∧
      ∀ j, j < n →
        (ballLandingGetItem decode proc zeroImg n sequence_paths
            target_coords).1.getD j zeroImg =
          (match decode (sequence_paths.getD j "") with
           | some img => proc img
           | none => zeroImg)) := by
  constructor
  · intro paths targets idx hfail
    rw [tennisFrameGetItem, hfail]
  · intro n sequence_paths target_coords hlen
    have hmaplen : (sequence_paths.map fun p =>
        (match decode p with
         | some img => proc img
         | none => zeroImg)).length = n := by
      rw [List.length_map, hlen]
    constructor
    · rw [ballLandingGetItem]
      simp only [hmaplen, if_pos]
    · intro j hj
      have hj' : j < sequence_paths.length := by omega
      rw [ballLandingGetItem]
      simp only [hmaplen, if_pos]
      rw [List.getD_eq_getElem?_getD, List.getElem?_map,
        List.getElem?_eq_getElem hj', List.getD_eq_getElem _ _ hj']
      rfl

/-- Witness for C10 with `Img := Bool` (zero image `false`): a failing frame
yields `(false, 0)` in the single-frame dataset despite stored target 7/10;
in the sequence dataset the target `(1/3, 2/3)` survives, the failing frame
is blacked out and the succeeding frame is kept. -/
theorem c10_io_failure_targets_witness :
    tennisFrameGetItem (fun _ => (none : Option Bool)) id true ["bad.jpg"]
      [7/10] 0 = (true, 0) ∧
    (ballLandingGetItem (fun s => if s = "ok" then some true else none) id
      false 2 ["ok", "bad"] (1/3, 2/3)).2 = (1/3, 2/3) ∧
    (ballLandingGetItem (fun s => if s = "ok" then some true else none) id
      false 2 ["ok", "bad"] (1/3, 2/3)).1.getD 0 false = true ∧
    (ballLandingGetItem (fun s => if s = "ok" then some true else none) id
      false 2 ["ok", "bad"] (1/3, 2/3)).1.getD 1 false = false := by
  have h1 := (c10_io_failure_targets (fun _ => (none : Option Bool)) id true).1
    ["bad.jpg"] [7/10] 0 rfl
  have h2 := (c10_io_failure_targets
    (fun s => if s = "ok" then some true else none) id false).2
    2 ["ok", "bad"] (1/3, 2/3) rfl
  have e0 := h2.2 0 (by norm_num)
  have e1 := h2.2 1 (by norm_num)
  refine ⟨h1, h2.1, ?_, ?_⟩
  · rw [e0]
    simp
  · rw [e1]
    have : ("bad" : String) ≠ "ok" := by decide
    simp [this]

end TeCNNis
